import Mathlib

/-!
Verification of the affine georeferencing logic of the satellite-imagery
notebook (`src/RemoteSensing101/Inspecting_Satellite_Imagery.ipynb`).

Real-valued coordinates are embedded as rationals (`ℚ`): every concrete
coefficient and coordinate appearing in the notebook and in the claims is an
exact decimal, and all operations involved (affine maps, division, floor,
round, ceil) are exact on those inputs, so `ℚ` is a faithful model of the
arithmetic the claims speak about.
-/

namespace SatImagery

/-- Modelled from the spec: the rounding policy for world-to-pixel
conversion, one of floor, round, ceil.  The notebook passes the rounding
function ad hoc (`op=math.floor`); the spec promotes it to an enumerated
required parameter. -/
inductive RoundingPolicy where
  | floor
  | round
  | ceil
deriving DecidableEq

/-- Modelled from the spec: the error taxonomy of the transform component.
`singularTransform` is raised when inversion is attempted on a transform
whose 2x2 linear part has zero determinant. -/
inductive TransformError where
  | singularTransform
deriving DecidableEq

/-- Modelled from the spec: the 6-parameter affine mapping between pixel grid
coordinates and projected (map) coordinates,
`x_world = a * col + b * row + c`, `y_world = d * col + e * row + f`.
In the notebook this is `satdat.transform`, supplied by the raster library. -/
structure AffineGeoTransform where
  a : ℚ
  b : ℚ
  c : ℚ
  d : ℚ
  e : ℚ
  f : ℚ
deriving DecidableEq

instance {ε α : Type} [DecidableEq ε] [DecidableEq α] : DecidableEq (Except ε α) := fun x y =>
  match x, y with
  | .ok a, .ok b => if h : a = b then .isTrue (by rw [h]) else .isFalse (by simp [h])
  | .error a, .error b => if h : a = b then .isTrue (by rw [h]) else .isFalse (by simp [h])
  | .ok _, .error _ => .isFalse (by simp)
  | .error _, .ok _ => .isFalse (by simp)

/-- Determinant of the 2x2 linear part `[[a,b],[d,e]]` of the transform. -/
def det (t : AffineGeoTransform) : ℚ := t.a * t.e - t.b * t.d

/-- Modelled from the spec: the forward mapping
`pixel_to_world(row, col) = (a*col + b*row + c, d*col + e*row + f)`.
Exact real-valued world coordinates, no rounding, no bounds check. -/
def pixel_to_world (t : AffineGeoTransform) (row col : ℤ) : ℚ × ℚ :=
  (t.a * col + t.b * row + t.c, t.d * col + t.e * row + t.f)

/-- Apply a rounding policy to a fractional pixel coordinate.  Floor is
`Rat.floor`; ceiling is the negated floor of the negation; round is
floor after adding one half (round half up). -/
def applyPolicy (p : RoundingPolicy) (q : ℚ) : ℤ :=
  match p with
  | .floor => q.floor
  | .round => (q + 1/2).floor
  | .ceil => -((-q).floor)

/-- The executable `Rat.floor` agrees with the order-theoretic floor. -/
theorem ratFloor_eq (q : ℚ) : q.floor = ⌊q⌋ := by
  rw [Rat.floor_def', Rat.floor_def]

theorem applyPolicy_floor (q : ℚ) : applyPolicy .floor q = ⌊q⌋ := ratFloor_eq q

theorem applyPolicy_round (q : ℚ) : applyPolicy .round q = round q := by
  rw [applyPolicy, ratFloor_eq, round_eq]

theorem applyPolicy_ceil (q : ℚ) : applyPolicy .ceil q = ⌈q⌉ := by
  rw [applyPolicy, ratFloor_eq, Int.floor_neg, neg_neg]

/-- Modelled from the spec: the inverse mapping `world_to_pixel(x, y, policy)`.
It solves the forward linear system (failing with `SingularTransform` when the
2x2 linear part is not invertible), producing fractional `(row_f, col_f)`,
applies the rounding policy to each coordinate independently, and returns the
integer pair `(row, col)`.  No range check against the dataset dimensions is
performed.  In the notebook this is `satdat.index(x, y, op=...)`. -/
def world_to_pixel (t : AffineGeoTransform) (x y : ℚ) (p : RoundingPolicy) :
    Except TransformError (ℤ × ℤ) :=
  if det t = 0 then .error .singularTransform
  else
    let col_f := (t.e * (x - t.c) - t.b * (y - t.f)) / det t
    let row_f := (t.a * (y - t.f) - t.d * (x - t.c)) / det t
    .ok (applyPolicy p row_f, applyPolicy p col_f)

/-- The concrete transform of the spec scenarios:
`a=3.0, b=0, c=500000.0, d=0, e=-3.0, f=4000000.0`
(3-meter axis-aligned pixels, UTM-style offsets). -/
def exTransform : AffineGeoTransform :=
  { a := 3, b := 0, c := 500000, d := 0, e := -3, f := 4000000 }

/-- On an invertible transform, `world_to_pixel` returns the rounded solution
of the forward linear system. -/
theorem world_to_pixel_eq (t : AffineGeoTransform) (x y : ℚ) (p : RoundingPolicy)
    (h : det t ≠ 0) :
    world_to_pixel t x y p
      = .ok (applyPolicy p ((t.a * (y - t.f) - t.d * (x - t.c)) / det t),
             applyPolicy p ((t.e * (x - t.c) - t.b * (y - t.f)) / det t)) := by
  rw [world_to_pixel, if_neg h]

/-- Claim C1: for the transform `a=3.0, b=0, c=500000.0, d=0, e=-3.0,
f=4000000.0`, `pixel_to_world(0, 0) = (500000.0, 4000000.0)` and
`pixel_to_world(1, 1) = (500003.0, 3999997.0)`. -/
theorem claim_C1_pixel_to_world_concrete :
    pixel_to_world exTransform 0 0 = (500000, 4000000)
      ∧ pixel_to_world exTransform 1 1 = (500003, 3999997) := by
  constructor
  · norm_num [pixel_to_world, exTransform]
  · norm_num [pixel_to_world, exTransform]

/-- Claim C2: for the same transform,
`world_to_pixel(500001.5, 3999998.5, policy=floor) = (0, 0)` and
`world_to_pixel(500001.5, 3999998.5, policy=ceil) = (1, 1)`. -/
theorem claim_C2_world_to_pixel_concrete :
    world_to_pixel exTransform 500001.5 3999998.5 .floor = .ok (0, 0)
      ∧ world_to_pixel exTransform 500001.5 3999998.5 .ceil = .ok (1, 1) := by
  have h : det exTransform ≠ 0 := by norm_num [det, exTransform]
  constructor
  · rw [world_to_pixel_eq _ _ _ _ h]
    simp only [exTransform, det, applyPolicy, ratFloor_eq]
    norm_num [Prod.ext_iff]
  · rw [world_to_pixel_eq _ _ _ _ h]
    simp only [exTransform, det, applyPolicy, ratFloor_eq]
    norm_num [Prod.ext_iff]

/-- Claim C4: for every invertible transform and every integer pixel
`(row, col)`, composing the forward mapping with the inverse mapping under the
round policy is the identity:
`world_to_pixel(pixel_to_world(row, col), policy=round) = (row, col)`.
In the exact rational model the fractional result is exactly `(row, col)`, so
no tolerance is needed before rounding. -/
theorem claim_C4_roundtrip (t : AffineGeoTransform) (row col : ℤ) (h : det t ≠ 0) :
    world_to_pixel t (pixel_to_world t row col).1 (pixel_to_world t row col).2 .round
      = .ok (row, col) := by
  rw [world_to_pixel_eq _ _ _ _ h]
  simp only [pixel_to_world]
  have hrow : (t.a * ((t.d * (col : ℚ) + t.e * (row : ℚ) + t.f) - t.f)
      - t.d * ((t.a * (col : ℚ) + t.b * (row : ℚ) + t.c) - t.c)) / det t = (row : ℚ) := by
    rw [div_eq_iff h, det]; ring
  have hcol : (t.e * ((t.a * (col : ℚ) + t.b * (row : ℚ) + t.c) - t.c)
      - t.b * ((t.d * (col : ℚ) + t.e * (row : ℚ) + t.f) - t.f)) / det t = (col : ℚ) := by
    rw [div_eq_iff h, det]; ring
  rw [hrow, hcol]
  simp only [applyPolicy_round, round_intCast]

theorem claim_C4_roundtrip_witness :
    det exTransform ≠ 0
      ∧ world_to_pixel exTransform (pixel_to_world exTransform 2 5).1
          (pixel_to_world exTransform 2 5).2 .round = .ok (2, 5) :=
  ⟨by norm_num [det, exTransform],
   claim_C4_roundtrip exTransform 2 5 (by norm_num [det, exTransform])⟩

/-- Claim C7: whenever `world_to_pixel` is applied to a transform whose 2x2
linear part has zero determinant, it fails with `SingularTransform` and never
returns an integer pixel result. -/
theorem claim_C7_singular_failure (t : AffineGeoTransform) (x y : ℚ) (p : RoundingPolicy)
    (h : det t = 0) :
    world_to_pixel t x y p = .error .singularTransform := by
  rw [world_to_pixel, if_pos h]

/-- A transform whose linear part `[[1,2],[2,4]]` has determinant zero. -/
def singularExample : AffineGeoTransform :=
  { a := 1, b := 2, c := 0, d := 2, e := 4, f := 0 }

theorem claim_C7_singular_failure_witness :
    det singularExample = 0
      ∧ world_to_pixel singularExample 10 20 .floor = .error .singularTransform :=
  ⟨by norm_num [det, singularExample],
   claim_C7_singular_failure singularExample 10 20 .floor
     (by norm_num [det, singularExample])⟩

/-- Claim C8: for every invertible transform and every world coordinate,
`world_to_pixel` succeeds with an integer pair.  The operation takes no
dataset dimensions at all, so no range check against
`[0, height) x [0, width)` can occur and out-of-range pairs are ordinary
outputs. -/
theorem claim_C8_no_range_check (t : AffineGeoTransform) (x y : ℚ) (p : RoundingPolicy)
    (h : det t ≠ 0) :
    ∃ rc : ℤ × ℤ, world_to_pixel t x y p = .ok rc :=
  ⟨_, world_to_pixel_eq t x y p h⟩

theorem claim_C8_no_range_check_witness :
    det exTransform ≠ 0
      ∧ ∃ rc : ℤ × ℤ, world_to_pixel exTransform 498000 4002000 .floor = .ok rc :=
  ⟨by norm_num [det, exTransform],
   claim_C8_no_range_check exTransform 498000 4002000 .floor
     (by norm_num [det, exTransform])⟩

/-- Modelled from the spec: the bounding box of a raster in projected units,
`left, bottom, right, top`, with invariant `right ≥ left`, `top ≥ bottom`. -/
structure BoundingBox where
  left : ℚ
  bottom : ℚ
  right : ℚ
  top : ℚ
deriving DecidableEq

/-- Modelled from the spec: `satdat.bounds`, the rectangular extent of a
raster with the given transform and pixel dimensions — the minima and maxima
of the world coordinates of the four grid corners
`(0,0), (width,0), (0,height), (width,height)` (in column/row order). -/
def boundsOf (t : AffineGeoTransform) (width height : ℕ) : BoundingBox :=
  { left := min (min t.c (t.a * width + t.c))
      (min (t.b * height + t.c) (t.a * width + t.b * height + t.c))
    bottom := min (min t.f (t.d * width + t.f))
      (min (t.e * height + t.f) (t.d * width + t.e * height + t.f))
    right := max (max t.c (t.a * width + t.c))
      (max (t.b * height + t.c) (t.a * width + t.b * height + t.c))
    top := max (max t.f (t.d * width + t.f))
      (max (t.e * height + t.f) (t.d * width + t.e * height + t.f)) }

/-- Pixel width as the notebook computes it:
`xres = (satdat.bounds.right - satdat.bounds.left) / satdat.width`. -/
def xres (t : AffineGeoTransform) (width height : ℕ) : ℚ :=
  ((boundsOf t width height).right - (boundsOf t width height).left) / width

/-- Pixel height as the notebook computes it:
`yres = (satdat.bounds.top - satdat.bounds.bottom) / satdat.height`. -/
def yres (t : AffineGeoTransform) (width height : ℕ) : ℚ :=
  ((boundsOf t width height).top - (boundsOf t width height).bottom) / height

/-- The square-pixel check as the notebook computes it:
`"Are the pixels square: {}".format(xres == yres)` — exact equality of the two
resolutions, with no tolerance parameter. -/
def is_square_pixel (t : AffineGeoTransform) (width height : ℕ) : Bool :=
  xres t width height = yres t width height

/-- Modelled from the spec: resolution derived from the coefficients, pixel
width `sqrt(a^2 + d^2)` and pixel height `sqrt(b^2 + e^2)`. -/
noncomputable def resolution_spec (t : AffineGeoTransform) : ℝ × ℝ :=
  (Real.sqrt ((t.a : ℝ) ^ 2 + (t.d : ℝ) ^ 2), Real.sqrt ((t.b : ℝ) ^ 2 + (t.e : ℝ) ^ 2))

/-- A transform with nominally square 3-meter pixels whose x and y resolutions
differ by exactly 1e-10. -/
def nearSquareExample : AffineGeoTransform :=
  { a := 3, b := 0, c := 0, d := 0, e := -(3 + 1/10000000000), f := 0 }

/-- Claim C3 counterexample: the notebook's square-pixel check, applied to
resolutions whose difference is non-zero but at most the tolerance 1e-9,
returns false, not true — it uses exact equality of `xres` and `yres` and
takes no tolerance parameter, refuting the claim as stated. -/
theorem claim_C3_square_pixel_counterexample :
    xres nearSquareExample 1 1 ≠ yres nearSquareExample 1 1
      ∧ |xres nearSquareExample 1 1 - yres nearSquareExample 1 1| ≤ (1/1000000000 : ℚ)
      ∧ is_square_pixel nearSquareExample 1 1 = false := by
  refine ⟨?_, ?_, ?_⟩
  · norm_num [xres, yres, boundsOf, nearSquareExample, min_def, max_def]
  · norm_num [xres, yres, boundsOf, nearSquareExample, min_def, max_def, abs_le]
  · simp only [is_square_pixel, decide_eq_false_iff_not]
    norm_num [xres, yres, boundsOf, nearSquareExample, min_def, max_def]

/-- Claim C3 (amended): the notebook's square-pixel predicate takes no
tolerance parameter and returns true exactly when `xres` and `yres` are
exactly equal; on every pair of resolutions whose difference is non-zero —
however small — it returns false. -/
theorem claim_C3_square_pixel_exact (t : AffineGeoTransform) (width height : ℕ) :
    (is_square_pixel t width height = true ↔ xres t width height = yres t width height)
      ∧ (xres t width height ≠ yres t width height →
          is_square_pixel t width height = false) := by
  refine ⟨by simp [is_square_pixel], fun hne => by simp [is_square_pixel, hne]⟩

theorem claim_C3_square_pixel_exact_witness :
    xres nearSquareExample 1 1 ≠ yres nearSquareExample 1 1
      ∧ is_square_pixel nearSquareExample 1 1 = false := by
  have h1 : xres nearSquareExample 1 1 ≠ yres nearSquareExample 1 1 := by
    norm_num [xres, yres, boundsOf, nearSquareExample, min_def, max_def]
  exact ⟨h1, (claim_C3_square_pixel_exact nearSquareExample 1 1).2 h1⟩

/-- Claim C9: for every axis-aligned transform (`b = d = 0`) with positive
pixel dimensions, the bounds-based resolution the notebook computes,
`xres = (right - left)/width` and `yres = (top - bottom)/height`, equals the
coefficient-based resolution of the spec, `sqrt(a^2+d^2) = |a|` and
`sqrt(b^2+e^2) = |e|`. -/
theorem claim_C9_resolution_refines (t : AffineGeoTransform) (width height : ℕ)
    (hb : t.b = 0) (hd : t.d = 0) (hw : 0 < width) (hh : 0 < height) :
    xres t width height = |t.a| ∧ yres t width height = |t.e|
      ∧ ((xres t width height : ℝ), (yres t width height : ℝ)) = resolution_spec t := by
  have hwq : ((width : ℚ)) ≠ 0 := Nat.cast_ne_zero.mpr hw.ne'
  have hhq : ((height : ℚ)) ≠ 0 := Nat.cast_ne_zero.mpr hh.ne'
  have h1 : xres t width height = |t.a| := by
    simp only [xres, boundsOf, hb, zero_mul, add_zero, zero_add, min_self, max_self]
    rw [max_sub_min_eq_abs]
    rw [show t.a * (width : ℚ) + t.c - t.c = t.a * width by ring]
    rw [abs_mul, abs_of_nonneg (by positivity : (0:ℚ) ≤ (width : ℚ))]
    rw [mul_div_assoc, div_self hwq, mul_one]
  have h2 : yres t width height = |t.e| := by
    simp only [yres, boundsOf, hd, zero_mul, add_zero, zero_add, min_self, max_self]
    rw [max_sub_min_eq_abs]
    rw [show t.e * (height : ℚ) + t.f - t.f = t.e * height by ring]
    rw [abs_mul, abs_of_nonneg (by positivity : (0:ℚ) ≤ (height : ℚ))]
    rw [mul_div_assoc, div_self hhq, mul_one]
  refine ⟨h1, h2, ?_⟩
  rw [resolution_spec, Prod.mk.injEq, h1, h2, hb, hd]
  constructor
  · push_cast
    rw [show ((0:ℝ)) ^ 2 = 0 by norm_num, add_zero, Real.sqrt_sq_eq_abs]
  · push_cast
    rw [show ((0:ℝ)) ^ 2 = 0 by norm_num, zero_add, Real.sqrt_sq_eq_abs]

theorem claim_C9_resolution_refines_witness :
    exTransform.b = 0 ∧ exTransform.d = 0 ∧ (0 < 7) ∧ (0 < 5)
      ∧ |exTransform.a| = (3 : ℚ) ∧ |exTransform.e| = (3 : ℚ)
      ∧ (xres exTransform 7 5 = |exTransform.a| ∧ yres exTransform 7 5 = |exTransform.e|
          ∧ ((xres exTransform 7 5 : ℝ), (yres exTransform 7 5 : ℝ))
              = resolution_spec exTransform) :=
  ⟨rfl, rfl, by norm_num, by norm_num,
   by norm_num [exTransform], by norm_num [exTransform],
   claim_C9_resolution_refines exTransform 7 5 rfl rfl (by norm_num) (by norm_num)⟩

/-- The raster library's affine multiplication `transform * (u, v)`: the first
component of the pair is taken in the column (x) direction and the second in
the row (y) direction, so `transform * (col, row)` is the forward mapping. -/
def affineApply (t : AffineGeoTransform) (u v : ℤ) : ℚ × ℚ :=
  (t.a * u + t.b * v + t.c, t.d * u + t.e * v + t.f)

/-- `affineApply` in `(col, row)` order agrees with the forward mapping. -/
theorem affineApply_col_row (t : AffineGeoTransform) (row col : ℤ) :
    affineApply t col row = pixel_to_world t row col := rfl

/-- Corner-coordinate cell: the notebook computes
`topleft = satdat.transform * (row_min, col_min)` with `row_min = col_min = 0`. -/
def notebookTopleft (t : AffineGeoTransform) : ℚ × ℚ := affineApply t 0 0

/-- Corner-coordinate cell: the notebook computes
`botright = satdat.transform * (row_max, col_max)` with `row_max = height - 1`
and `col_max = width - 1` — the pair is passed in `(row, col)` order. -/
def notebookBotright (t : AffineGeoTransform) (height width : ℤ) : ℚ × ℚ :=
  affineApply t (height - 1) (width - 1)

/-- Claim C5: the corner-coordinate cell applies the transform to `(row, col)`
although the transform maps `(col, row)`; for an axis-aligned invertible
transform the value printed as the bottom-right corner is
`(a*(height-1) + c, e*(width-1) + f)`, which differs from the true world
coordinates of pixel `(row = height-1, col = width-1)` exactly when
`height ≠ width`, while the top-left corner `(0,0)` always agrees. -/
theorem claim_C5_corner_transpose (t : AffineGeoTransform) (height width : ℤ)
    (hb : t.b = 0) (hd : t.d = 0) (ha : t.a ≠ 0) (he : t.e ≠ 0) :
    notebookBotright t height width
        = (t.a * ((height : ℚ) - 1) + t.c, t.e * ((width : ℚ) - 1) + t.f)
      ∧ (notebookBotright t height width ≠ pixel_to_world t (height - 1) (width - 1)
          ↔ height ≠ width)
      ∧ notebookTopleft t = pixel_to_world t 0 0 := by
  have h1 : notebookBotright t height width
      = (t.a * ((height : ℚ) - 1) + t.c, t.e * ((width : ℚ) - 1) + t.f) := by
    simp only [notebookBotright, affineApply, hb, hd, zero_mul, add_zero, zero_add,
      Prod.mk.injEq]
    constructor
    · push_cast; ring
    · push_cast; ring
  have h2 : pixel_to_world t (height - 1) (width - 1)
      = (t.a * ((width : ℚ) - 1) + t.c, t.e * ((height : ℚ) - 1) + t.f) := by
    simp only [pixel_to_world, hb, hd, zero_mul, add_zero, zero_add, Prod.mk.injEq]
    constructor
    · push_cast; ring
    · push_cast; ring
  refine ⟨h1, ?_, ?_⟩
  · rw [h1, h2, Ne, Ne, Prod.mk.injEq]
    apply not_congr
    constructor
    · rintro ⟨hx, -⟩
      have hx' : t.a * ((height : ℚ) - 1) = t.a * ((width : ℚ) - 1) := by linarith
      have hhw : (height : ℚ) - 1 = (width : ℚ) - 1 := mul_left_cancel₀ ha hx'
      have : (height : ℚ) = (width : ℚ) := by linarith
      exact_mod_cast this
    · rintro rfl
      exact ⟨rfl, rfl⟩
  · simp only [notebookTopleft, pixel_to_world, affineApply]

theorem claim_C5_corner_transpose_witness :
    exTransform.b = 0 ∧ exTransform.d = 0 ∧ exTransform.a ≠ 0 ∧ exTransform.e ≠ 0
      ∧ (notebookBotright exTransform 5 7
            = (exTransform.a * ((5 : ℚ) - 1) + exTransform.c,
               exTransform.e * ((7 : ℚ) - 1) + exTransform.f)
          ∧ (notebookBotright exTransform 5 7 ≠ pixel_to_world exTransform (5 - 1) (7 - 1)
              ↔ (5 : ℤ) ≠ 7)
          ∧ notebookTopleft exTransform = pixel_to_world exTransform 0 0) :=
  ⟨rfl, rfl, by norm_num [exTransform], by norm_num [exTransform],
   claim_C5_corner_transpose exTransform 5 7 rfl rfl
     (by norm_num [exTransform]) (by norm_num [exTransform])⟩

/-- Pixel-lookup cell: the notebook's target world point abscissa,
`x_coord = satdat.bounds.left - 2000`. -/
def lookupX (bb : BoundingBox) : ℚ := bb.left - 2000

/-- Pixel-lookup cell: the notebook's target world point ordinate,
`y_coord = satdat.bounds.top + 2000`. -/
def lookupY (bb : BoundingBox) : ℚ := bb.top + 2000

/-- Modelled from the spec: NumPy-style indexing of a band array along one
axis of length `n` (absent from src, the notebook only calls it): an index in
`[0, n)` is used directly, a negative index in `[-n, 0)` silently wraps to
`n + i`, and anything else is an out-of-range error (`none`). -/
def npIndex (n : ℕ) (i : ℤ) : Option ℕ :=
  if 0 ≤ i ∧ i < (n : ℤ) then some i.toNat
  else if -(n : ℤ) ≤ i ∧ i < 0 then some ((n : ℤ) + i).toNat
  else none

/-- Claim C6: the pixel-lookup cell's target point
`(bounds.left - 2000, bounds.top + 2000)` lies strictly west and north of the
bounding box; for a north-up transform the floor-rounded row and column are
both negative, and NumPy-style indexing then silently wraps to a pixel near
the opposite (bottom-right) region instead of failing an out-of-range check. -/
theorem claim_C6_lookup_wraps_negative (t : AffineGeoTransform) (width height : ℕ)
    (r c : ℤ) (hb : t.b = 0) (hd : t.d = 0) (ha : 0 < t.a) (he : t.e < 0)
    (hres : world_to_pixel t (lookupX (boundsOf t width height))
        (lookupY (boundsOf t width height)) .floor = .ok (r, c)) :
    lookupX (boundsOf t width height) < (boundsOf t width height).left
      ∧ (boundsOf t width height).top < lookupY (boundsOf t width height)
      ∧ r < 0 ∧ c < 0
      ∧ (-(height : ℤ) ≤ r → npIndex height r = some ((height : ℤ) + r).toNat)
      ∧ (-(width : ℤ) ≤ c → npIndex width c = some ((width : ℤ) + c).toNat) := by
  have hL : (boundsOf t width height).left = t.c := by
    simp only [boundsOf, hb, zero_mul, add_zero, zero_add, min_self]
    rw [min_eq_left (le_add_of_nonneg_left (by positivity))]
  have hT : (boundsOf t width height).top = t.f := by
    simp only [boundsOf, hd, zero_mul, add_zero, zero_add, max_self]
    rw [max_eq_left (add_le_of_nonpos_left
      (mul_nonpos_iff.mpr (Or.inr ⟨he.le, by positivity⟩)))]
  have hXval : lookupX (boundsOf t width height) = t.c - 2000 := by rw [lookupX, hL]
  have hYval : lookupY (boundsOf t width height) = t.f + 2000 := by rw [lookupY, hT]
  have haen : t.a * t.e < 0 := mul_neg_of_pos_of_neg ha he
  have hdet : det t ≠ 0 := by
    rw [det, hb]
    simpa using haen.ne
  rw [world_to_pixel_eq _ _ _ _ hdet] at hres
  have hrowval : (t.a * (lookupY (boundsOf t width height) - t.f)
      - t.d * (lookupX (boundsOf t width height) - t.c)) / det t = 2000 / t.e := by
    rw [hXval, hYval, det, hb, hd]
    rw [show t.a * (t.f + 2000 - t.f) - 0 * (t.c - 2000 - t.c) = t.a * 2000 by ring]
    rw [show t.a * t.e - 0 * 0 = t.a * t.e by ring]
    exact mul_div_mul_left _ _ ha.ne'
  have hcolval : (t.e * (lookupX (boundsOf t width height) - t.c)
      - t.b * (lookupY (boundsOf t width height) - t.f)) / det t = -2000 / t.a := by
    rw [hXval, hYval, det, hb, hd]
    rw [show t.e * (t.c - 2000 - t.c) - 0 * (t.f + 2000 - t.f) = t.e * (-2000) by ring]
    rw [show t.a * t.e - 0 * 0 = t.e * t.a by ring]
    exact mul_div_mul_left _ _ he.ne
  rw [hrowval, hcolval] at hres
  simp only [Except.ok.injEq, Prod.mk.injEq, applyPolicy_floor] at hres
  obtain ⟨hr', hc'⟩ := hres
  have hrneg : r < 0 := by
    rw [← hr', ← not_le, Int.floor_nonneg]
    exact not_le.mpr (div_neg_of_pos_of_neg (by norm_num) he)
  have hcneg : c < 0 := by
    rw [← hc', ← not_le, Int.floor_nonneg]
    exact not_le.mpr (div_neg_of_neg_of_pos (by norm_num) ha)
  refine ⟨by rw [lookupX]; linarith, by rw [lookupY]; linarith, hrneg, hcneg, ?_, ?_⟩
  · intro hge
    rw [npIndex, if_neg (by omega), if_pos ⟨hge, hrneg⟩]
  · intro hge
    rw [npIndex, if_neg (by omega), if_pos ⟨hge, hcneg⟩]

theorem claim_C6_lookup_wraps_negative_witness :
    exTransform.b = 0 ∧ exTransform.d = 0 ∧ (0 : ℚ) < exTransform.a ∧ exTransform.e < 0
      ∧ world_to_pixel exTransform (lookupX (boundsOf exTransform 7000 5000))
          (lookupY (boundsOf exTransform 7000 5000)) .floor = .ok (-667, -667)
      ∧ (lookupX (boundsOf exTransform 7000 5000) < (boundsOf exTransform 7000 5000).left
          ∧ (boundsOf exTransform 7000 5000).top < lookupY (boundsOf exTransform 7000 5000)
          ∧ (-667 : ℤ) < 0 ∧ (-667 : ℤ) < 0
          ∧ (-(5000 : ℤ) ≤ -667 → npIndex 5000 (-667) = some ((5000 : ℤ) + -667).toNat)
          ∧ (-(7000 : ℤ) ≤ -667 → npIndex 7000 (-667) = some ((7000 : ℤ) + -667).toNat)) := by
  have hres : world_to_pixel exTransform (lookupX (boundsOf exTransform 7000 5000))
      (lookupY (boundsOf exTransform 7000 5000)) .floor = .ok (-667, -667) := by
    rw [world_to_pixel_eq _ _ _ _ (by norm_num [det, exTransform])]
    norm_num [lookupX, lookupY, boundsOf, exTransform, det, applyPolicy, ratFloor_eq,
      min_def, max_def, Prod.ext_iff]
  exact ⟨rfl, rfl, by norm_num [exTransform], by norm_num [exTransform], hres,
    claim_C6_lookup_wraps_negative exTransform 7000 5000 (-667) (-667) rfl rfl
      (by norm_num [exTransform]) (by norm_num [exTransform]) hres⟩

/-- Pixel-lookup cell: the notebook unpacks
`col, row = satdat.index(x, y, op=floor)`, binding `col` to the first returned
component and `row` to the second, and then reads `red[row, col]`; the position
it accesses is therefore the swap of the `(row, col)` pair the index
conversion returned. -/
def notebookLookupPos (t : AffineGeoTransform) (x y : ℚ) :
    Except TransformError (ℤ × ℤ) :=
  (world_to_pixel t x y .floor).map fun rc => (rc.2, rc.1)

/-- Claim C10: the unpacking `col, row = satdat.index(x, y, op=floor)` is the
transpose of the `(row, col)` order in which the index conversion returns its
result, so the pixel read as `red[row, col]` is the pixel at the transposed
position, and it is the intended position exactly when the two integer indices
are equal. -/
theorem claim_C10_transposed_unpack (t : AffineGeoTransform) (x y : ℚ) (r c : ℤ)
    (hres : world_to_pixel t x y .floor = .ok (r, c)) :
    notebookLookupPos t x y = .ok (c, r)
      ∧ (notebookLookupPos t x y = world_to_pixel t x y .floor ↔ r = c) := by
  have h1 : notebookLookupPos t x y = .ok (c, r) := by
    rw [notebookLookupPos, hres]
    rfl
  refine ⟨h1, ?_⟩
  rw [h1, hres]
  constructor
  · intro h
    simp only [Except.ok.injEq, Prod.mk.injEq] at h
    exact h.2
  · rintro rfl
    rfl

theorem claim_C10_transposed_unpack_witness :
    world_to_pixel exTransform 500004 4000000 .floor = .ok (0, 1)
      ∧ (notebookLookupPos exTransform 500004 4000000 = .ok (1, 0)
          ∧ (notebookLookupPos exTransform 500004 4000000
              = world_to_pixel exTransform 500004 4000000 .floor ↔ (0 : ℤ) = 1)) := by
  have hres : world_to_pixel exTransform 500004 4000000 .floor = .ok (0, 1) := by
    rw [world_to_pixel_eq _ _ _ _ (by norm_num [det, exTransform])]
    norm_num [exTransform, det, applyPolicy, ratFloor_eq, Prod.ext_iff]
  exact ⟨hres, claim_C10_transposed_unpack exTransform 500004 4000000 0 1 hres⟩

end SatImagery
